import Mathlib

/-!
Verification of the learnings-mcp storage/search core.

The TypeScript source is modelled shallowly: strings are `List Char`
(`Str`), the filesystem is an association list from filename to file text,
promises/exceptions are `Except String`.  JavaScript character classes
(`\w`, `\s`, line terminators of `.`) and `String.prototype.trim` are
modelled by explicit predicates over code points; `toLowerCase` is
modelled pointwise by `Char.toLower` (ASCII case mapping).
-/

abbrev Str := List Char

instance {ε α : Type} [DecidableEq ε] [DecidableEq α] : DecidableEq (Except ε α) := fun x y =>
  match x, y with
  | .ok a, .ok b =>
    if h : a = b then isTrue (by rw [h])
    else isFalse (fun hh => h (Except.ok.inj hh))
  | .error a, .error b =>
    if h : a = b then isTrue (by rw [h])
    else isFalse (fun hh => h (Except.error.inj hh))
  | .ok _, .error _ => isFalse (fun hh => Except.noConfusion hh)
  | .error _, .ok _ => isFalse (fun hh => Except.noConfusion hh)

/-- JavaScript `\s` (and the character set removed by `String.prototype.trim`):
whitespace plus line terminators. -/
def jsWs (c : Char) : Bool :=
  let n := c.toNat
  n == 9 || n == 10 || n == 11 || n == 12 || n == 13 || n == 32 ||
  n == 0xa0 || n == 0x1680 || (0x2000 ≤ n && n ≤ 0x200a) ||
  n == 0x2028 || n == 0x2029 || n == 0x202f || n == 0x205f ||
  n == 0x3000 || n == 0xfeff

/-- JavaScript line terminators: the characters `.` does not match. -/
def lineTerm (c : Char) : Bool :=
  c.toNat == 10 || c.toNat == 13 || c.toNat == 0x2028 || c.toNat == 0x2029

/-- JavaScript `\w`: `[A-Za-z0-9_]`. -/
def wordChar (c : Char) : Bool :=
  let n := c.toNat
  (97 ≤ n && n ≤ 122) || (65 ≤ n && n ≤ 90) || (48 ≤ n && n ≤ 57) || n == 95

/-- `String.prototype.trim`: strip `jsWs` from both ends. -/
def jsTrim (s : Str) : Str :=
  ((s.dropWhile jsWs).reverse.dropWhile jsWs).reverse

/-- Split at the first occurrence of `pat` (the lazy group of
`/^---\n([\s\S]*?)\n---\n([\s\S]*)$/` stops at the first occurrence of the
closing delimiter): `some (before, after)` where `before ++ pat ++ after`
is the input and `pat` does not occur earlier. -/
def splitFirst (pat : Str) : Str → Option (Str × Str)
  | [] => if pat.isEmpty then some ([], []) else none
  | c :: cs =>
    if pat.isPrefixOf (c :: cs) then some ([], (c :: cs).drop pat.length)
    else
      match splitFirst pat cs with
      | some (before, after) => some (c :: before, after)
      | none => none

/-- JavaScript `String.prototype.split` with a one-character separator. -/
def splitOnChar (sep : Char) : Str → List Str
  | [] => [[]]
  | c :: cs =>
    if c = sep then [] :: splitOnChar sep cs
    else
      match splitOnChar sep cs with
      | [] => [[c]]
      | l :: ls => (c :: l) :: ls

/-- JavaScript `Array.prototype.join` with separator `sep`. -/
def joinSep (sep : Str) : List Str → Str
  | [] => []
  | [x] => x
  | x :: xs => x ++ sep ++ joinSep sep xs

/-- JavaScript `String.prototype.includes`: substring containment. -/
def containsSub (hay needle : Str) : Bool :=
  needle.isPrefixOf hay ||
    match hay with
    | [] => false
    | _ :: t => containsSub t needle

/-- JavaScript `toLowerCase`, modelled pointwise (ASCII case mapping). -/
def toLowerStr (s : Str) : Str := s.map Char.toLower

/-- `LearningMetadata` from `repository.ts`. -/
structure LearningMetadata where
  title : Str
  topic : Str
  tags : List Str
  created : Str
  related : List Str
deriving DecidableEq, Repr

/-- A parsed learning (`Learning` from `repository.ts`). -/
structure Learning where
  filename : Str
  metadata : LearningMetadata
  content : Str
deriving DecidableEq, Repr

/-- The partially filled metadata object built line by line by
`parseLearning`'s `forEach` (`Partial<LearningMetadata>`). -/
structure PartialMeta where
  title : Option Str := none
  topic : Option Str := none
  created : Option Str := none
  tags : Option (List Str) := none
  related : Option (List Str) := none
deriving DecidableEq, Repr

/-- JavaScript falsiness of an optional string: `undefined` or `""`. -/
def falsyStr (o : Option Str) : Bool := (o.getD []).isEmpty

/-- One metadata line against `/^(\w+):\s*(.+)$/`: maximal `\w+` key, a
colon, greedy `\s*`, then `(.+)$` — at least one character, none of them a
line terminator.  When everything after the colon is whitespace the engine
backtracks `\s*` by one character, so the value is the final character of
the line provided it is not a line terminator. -/
def parseLine (line : Str) : Option (Str × Str) :=
  let key := line.takeWhile wordChar
  match line.dropWhile wordChar with
  | ':' :: r =>
    if key.isEmpty then none
    else
      let v := r.dropWhile jsWs
      if v.isEmpty then
        match r.getLast? with
        | some c => if lineTerm c then none else some (key, [c])
        | none => none
      else if v.any lineTerm then none else some (key, v)
  | _ => none

/-- `value.replace(/^\[|\]$/g, "").split(",").map(trim).filter(Boolean)`
from `FileSystemRepository.parseLearning`. -/
def parseArrayValue (value : Str) : List Str :=
  let v1 := match value with
    | '[' :: t => t
    | _ => value
  let v2 := match v1.getLast? with
    | some ']' => v1.dropLast
    | _ => v1
  ((splitOnChar ',' v2).map jsTrim).filter (fun s => !s.isEmpty)

/-- One step of `parseLearning`'s `forEach` over the front-matter lines.
Keys other than the five schema fields are stored on the JS object but
never read back, so they leave the projected state unchanged. -/
def updateMeta (m : PartialMeta) (line : Str) : PartialMeta :=
  match parseLine line with
  | none => m
  | some (key, value) =>
    if key = "tags".toList then { m with tags := some (parseArrayValue value) }
    else if key = "related".toList then { m with related := some (parseArrayValue value) }
    else if key = "title".toList then { m with title := some (jsTrim value) }
    else if key = "topic".toList then { m with topic := some (jsTrim value) }
    else if key = "created".toList then { m with created := some (jsTrim value) }
    else m

/-- The `forEach` of `FileSystemRepository.parseLearning` over
`frontMatter.split("\n")`. -/
def collectMeta (frontMatter : Str) : PartialMeta :=
  (splitOnChar '\n' frontMatter).foldl updateMeta {}

/-- `FileSystemRepository.parseLearning`: decode front matter and body. -/
def parseLearning (markdown : Str) : Except String (LearningMetadata × Str) :=
  if ("---\n".toList).isPrefixOf markdown then
    match splitFirst ("\n---\n".toList) (markdown.drop 4) with
    | some (frontMatter, content) =>
      if frontMatter.isEmpty then
        .error "Invalid learning format: empty front matter"
      else
        let md := collectMeta frontMatter
        if falsyStr md.title || falsyStr md.topic || falsyStr md.created then
          .error "Invalid learning: missing required metadata (title, topic, created)"
        else
          .ok ({ title := md.title.getD [], topic := md.topic.getD [],
                 tags := md.tags.getD [], created := md.created.getD [],
                 related := md.related.getD [] }, jsTrim content)
    | none => .error "Invalid learning format: missing front matter"
  else .error "Invalid learning format: missing front matter"

/-- `FileSystemRepository.serializeLearning`: fixed-order front matter
joined with `"\n"`, a blank line, then the content. -/
def serializeLearning (metadata : LearningMetadata) (content : Str) : Str :=
  joinSep ("\n".toList)
    [ "---".toList,
      "title: ".toList ++ metadata.title,
      "topic: ".toList ++ metadata.topic,
      "tags: [".toList ++ joinSep (", ".toList) metadata.tags ++ "]".toList,
      "created: ".toList ++ metadata.created,
      "related: [".toList ++ joinSep (", ".toList) metadata.related ++ "]".toList,
      "---".toList ] ++ "\n\n".toList ++ content

/-- `SearchOptions` from `repository.ts`: each filter may be absent. -/
structure SearchOptions where
  topic : Option Str := none
  tags : Option (List Str) := none
  search : Option Str := none
deriving DecidableEq, Repr

/-- `SearchResult` from `repository.ts`: a summary view, never the body. -/
structure SearchResult where
  filename : Str
  title : Str
  topic : Str
deriving DecidableEq, Repr

/-- A backend base directory: entries in listing order, filename to text. -/
structure FileSys where
  files : List (Str × Str)
deriving DecidableEq, Repr

/-- `readFile`: the text stored under a filename, if any. -/
def readFileFS (fs : FileSys) (filename : Str) : Option Str :=
  (fs.files.find? (fun e => decide (e.1 = filename))).map (fun e => e.2)

/-- `writeFile`: overwrite an existing entry or create a new one. -/
def writeFS (fs : FileSys) (filename text : Str) : FileSys :=
  if fs.files.any (fun e => decide (e.1 = filename)) then
    ⟨fs.files.map (fun e => if e.1 = filename then (filename, text) else e)⟩
  else ⟨fs.files ++ [(filename, text)]⟩

/-- `unlink`: remove the entry or fail (`ENOENT`). -/
def deleteFS (fs : FileSys) (filename : Str) : Except String FileSys :=
  if fs.files.any (fun e => decide (e.1 = filename)) then
    .ok ⟨fs.files.filter (fun e => !decide (e.1 = filename))⟩
  else .error "ENOENT"

/-- `FileSystemRepository.listFiles`: entries ending in `.md`, excluding
`README.md`. -/
def listFilesFS (fs : FileSys) : List Str :=
  (fs.files.map (fun e => e.1)).filter
    (fun f => (".md".toList.isSuffixOf f) && !decide (f = "README.md".toList))

/-- `FileSystemRepository.read`: read the file and decode it. -/
def readLearning (fs : FileSys) (filename : Str) : Except String Learning :=
  match readFileFS fs filename with
  | none => .error "ENOENT"
  | some markdown =>
    (parseLearning markdown).map
      (fun p => { filename := filename, metadata := p.1, content := p.2 })

/-- JavaScript truthiness of an optional string option. -/
def optTruthy (o : Option Str) : Bool := !(o.getD []).isEmpty

/-- `options.tags && options.tags.length > 0`. -/
def optTagsNonempty (o : Option (List Str)) : Bool := !(o.getD []).isEmpty

/-- The three `continue` guards of `FileSystemRepository.search`, negated:
`true` iff the learning survives all supplied filters. -/
def matchesCode (opts : SearchOptions) (l : Learning) : Bool :=
  !(optTruthy opts.topic && !decide (l.metadata.topic = opts.topic.getD [])) &&
  !(optTagsNonempty opts.tags &&
      !((opts.tags.getD []).all (fun tag => l.metadata.tags.contains tag))) &&
  !(optTruthy opts.search &&
      !containsSub (toLowerStr (l.metadata.title ++ ' ' :: l.content))
        (toLowerStr (opts.search.getD [])))

/-- The summary pushed by `search` for a matching learning. -/
def mkResult (l : Learning) : SearchResult :=
  { filename := l.filename, title := l.metadata.title, topic := l.metadata.topic }

/-- The loop body of `FileSystemRepository.search` over the listed files:
read (propagating the first error), filter, collect summaries in order. -/
def searchGo (fs : FileSys) (opts : SearchOptions) : List Str → Except String (List SearchResult)
  | [] => .ok []
  | fn :: rest =>
    (readLearning fs fn).bind fun learning =>
      (searchGo fs opts rest).map fun tail =>
        if matchesCode opts learning then mkResult learning :: tail else tail

/-- `FileSystemRepository.search`. -/
def searchFS (fs : FileSys) (opts : SearchOptions) : Except String (List SearchResult) :=
  searchGo fs opts (listFilesFS fs)

/-- The parameters of `LearningsModule.add`. -/
structure AddParams where
  filename : Str
  title : Str
  topic : Str
  tags : Option (List Str) := none
  oneLiner : Str
  context : Str
  examples : Str
  related : Option (List Str) := none
deriving DecidableEq, Repr

/-- `LearningsModule.add`'s filename normalization: ensure the `.md`
extension. -/
def normalizeFilename (filename : Str) : Str :=
  if ".md".toList.isSuffixOf filename then filename else filename ++ ".md".toList

/-- The markdown body template built by `LearningsModule.add`. -/
def buildContent (p : AddParams) : Str :=
  "# ".toList ++ p.title ++ "\n\n".toList ++ p.oneLiner ++
  "\n\n## Context\n\n".toList ++ p.context ++
  "\n\n## Examples\n\n".toList ++ p.examples ++
  (match p.related with
   | some (r :: rs) =>
     "\n\n## See Also\n\n".toList ++
       joinSep ("\n".toList)
         ((r :: rs).map (fun f => "- [".toList ++ f ++ "](./".toList ++ f ++ ")".toList))
   | _ => [])

/-- The metadata record assembled by `LearningsModule.add`; `today` stands
for `new Date().toISOString().split("T")[0]`. -/
def addMeta (p : AddParams) (today : Str) : LearningMetadata :=
  { title := p.title, topic := p.topic, tags := p.tags.getD [],
    created := today, related := p.related.getD [] }

/-- `LearningsModule.add` over a plain filesystem repository: normalize the
filename, write the serialized learning, return the normalized filename. -/
def addModule (fs : FileSys) (p : AddParams) (today : Str) : FileSys × Str :=
  let normalizedFilename := normalizeFilename p.filename
  (writeFS fs normalizedFilename
     (serializeLearning (addMeta p today) (buildContent p)),
   normalizedFilename)

/-- The outcomes of the four shell commands `GitHubRepository` may run. -/
structure GitEnv where
  add : Except String Str
  status : Except String Str
  commit : Except String Str
  push : Except String Str
deriving Repr

/-- `GitHubRepository.git`: run one command, wrapping any failure. -/
def gitRun (r : Except String Str) : Except String Str :=
  match r with
  | .ok out => .ok out
  | .error e => .error ("Git command failed: " ++ e)

/-- `GitHubRepository.commitAndPush`: stage, check status, and — only when
the working tree changed — commit and push. -/
def commitAndPush (env : GitEnv) : Except String Unit :=
  (gitRun env.add).bind fun _ =>
    (gitRun env.status).bind fun status =>
      if (jsTrim status).isEmpty then .ok ()
      else
        (gitRun env.commit).bind fun _ =>
          (gitRun env.push).map fun _ => ()

/-- `GitHubRepository.write`: the filesystem write happens first, then the
sync; its result is returned alongside the mutated filesystem. -/
def githubWrite (fs : FileSys) (env : GitEnv) (filename : Str)
    (metadata : LearningMetadata) (content : Str) : FileSys × Except String Unit :=
  (writeFS fs filename (serializeLearning metadata content), commitAndPush env)

/-- `GitHubRepository.delete`: the unlink happens first (failing on a
missing file), then the sync. -/
def githubDelete (fs : FileSys) (env : GitEnv) (filename : Str) :
    Except String (FileSys × Except String Unit) :=
  (deleteFS fs filename).map fun fs2 => (fs2, commitAndPush env)

/-- The dual-scope `get_learning` handler: `Promise.allSettled` on both
scopes, keeping each fulfilled side, failing only when both reads failed. -/
def dualGet (globalRes localRes : Except String Learning) :
    Except String (Option Learning × Option Learning) :=
  let globalLearning := globalRes.toOption
  let localLearning := localRes.toOption
  if globalLearning.isNone && localLearning.isNone then
    .error "Learning not found"
  else .ok (globalLearning, localLearning)

/-- JavaScript `xs.slice(0, n)`: a negative end counts from the end. -/
def jsSlice0 {α : Type} (xs : List α) (n : ℤ) : List α :=
  if 0 ≤ n then xs.take n.toNat else xs.take (xs.length - n.natAbs)

/-- The proportional limit split of the `list_learnings` handler:
`globalLimit = Math.ceil(limit * (g / (g + l)))`, `localLimit = limit -
globalLimit` (arithmetic modelled exactly over `ℚ`). -/
def listLimits (limit g l : ℕ) : ℤ × ℤ :=
  let globalLimit : ℤ := ⌈(limit : ℚ) * ((g : ℚ) / ((g : ℚ) + (l : ℚ)))⌉
  (globalLimit, (limit : ℤ) - globalLimit)

/-- The two displayed slices of the dual-scope `list_learnings` handler. -/
def displaySlices (limit : ℕ) (globalResults localResults : List SearchResult) :
    List SearchResult × List SearchResult :=
  let lims := listLimits limit globalResults.length localResults.length
  (jsSlice0 globalResults lims.1, jsSlice0 localResults lims.2)

/-- The claimed integer form of the ceiling share. -/
def ceilShare (limit g l : ℕ) : ℕ := (limit * g + (g + l) - 1) / (g + l)

/-- Strict codepoint-lexicographic order on strings. -/
def lexLt : Str → Str → Bool
  | [], [] => false
  | [], _ :: _ => true
  | _ :: _, [] => false
  | a :: as, b :: bs => decide (a < b) || (a = b && lexLt as bs)

/-- Occurrences of a value in a list of values. -/
def countVal (values : List Str) (v : Str) : ℕ := values.count v

/-- Modelled from the spec: the ranking used by `getMetadata` (whose
definition is not among the provided sources; only its call sites are):
descending by occurrence count, ties broken by ascending lexicographic
order of the value. -/
def vocabLt (values : List Str) (a b : Str) : Bool :=
  countVal values b < countVal values a ||
    (countVal values a == countVal values b && lexLt a b)

/-- Insertion into a list sorted by `lt`. -/
def insertSorted (lt : Str → Str → Bool) (x : Str) : List Str → List Str
  | [] => [x]
  | y :: ys => if lt x y then x :: y :: ys else y :: insertSorted lt x ys

/-- Modelled from the spec: the frequency-ranked vocabulary of a value
multiset — distinct values sorted by `vocabLt`. -/
def sortVocab (values : List Str) : List Str :=
  values.dedup.foldr (insertSorted (vocabLt values)) []

/-- Modelled from the spec: `LearningsModule.getMetadata` — read every
document and produce the frequency-ranked topic and tag vocabularies. -/
def getMetadataModel (docs : List LearningMetadata) : List Str × List Str :=
  (sortVocab (docs.map (fun d => d.topic)),
   sortVocab ((docs.map (fun d => d.tags)).flatten))

/-- A metadata field that survives the codec unchanged: non-empty, without
line terminators, and equal to its own trim. -/
def cleanScalar (s : Str) : Bool :=
  !s.isEmpty && decide (jsTrim s = s) && s.all (fun c => !lineTerm c)

/-- An array entry that survives the codec unchanged: a clean scalar that
also contains no comma. -/
def cleanEntry (s : Str) : Bool :=
  cleanScalar s && s.all (fun c => !decide (c = ','))

/-- The filter predicate exactly as the claim words it: a supplied
non-empty topic must string-equal the document's topic (an empty supplied
topic excludes nothing), every supplied tag must be contained in the
document's tags, and a supplied query must be a lower-cased substring of
`title ++ " " ++ content`. -/
def matchesSpec (opts : SearchOptions) (l : Learning) : Bool :=
  (match opts.topic with
   | none => true
   | some t => if t.isEmpty then true else decide (l.metadata.topic = t)) &&
  (match opts.tags with
   | none => true
   | some ts => ts.all (fun tag => l.metadata.tags.contains tag)) &&
  (match opts.search with
   | none => true
   | some q => containsSub (toLowerStr (l.metadata.title ++ ' ' :: l.content))
       (toLowerStr q))

/-! ## Storage helper lemmas -/

theorem find?_overwrite (fn t : Str) :
    ∀ l : List (Str × Str), l.any (fun e => decide (e.1 = fn)) = true →
      (l.map (fun e => if e.1 = fn then (fn, t) else e)).find?
        (fun e => decide (e.1 = fn)) = some (fn, t) := by
  intro l
  induction l with
  | nil => simp
  | cons e es ih =>
    intro h
    by_cases he : e.1 = fn
    · simp [List.map_cons, List.find?, he]
    · simp only [List.any_cons, Bool.or_eq_true, decide_eq_true_eq] at h
      rcases h with h | h
      · exact absurd h he
      · simpa [List.map_cons, List.find?, he] using ih h

theorem find?_appended (fn t : Str) :
    ∀ l : List (Str × Str), l.any (fun e => decide (e.1 = fn)) = false →
      (l ++ [(fn, t)]).find? (fun e => decide (e.1 = fn)) = some (fn, t) := by
  intro l
  induction l with
  | nil => simp [List.find?]
  | cons e es ih =>
    intro h
    simp only [List.any_cons, Bool.or_eq_false_iff, decide_eq_false_iff_not] at h
    simpa [List.find?, h.1] using ih h.2

/-- Reading back a file just written yields the written text. -/
theorem readFileFS_writeFS (fs : FileSys) (fn t : Str) :
    readFileFS (writeFS fs fn t) fn = some t := by
  unfold readFileFS writeFS
  by_cases h : fs.files.any (fun e => decide (e.1 = fn)) = true
  · rw [if_pos h, find?_overwrite fn t fs.files h]
    rfl
  · simp only [Bool.not_eq_true] at h
    rw [if_neg (by simp [h]), find?_appended fn t fs.files h]
    rfl

/-- A deleted file is gone. -/
theorem readFileFS_deleteFS (fs fs2 : FileSys) (fn : Str)
    (h : deleteFS fs fn = .ok fs2) : readFileFS fs2 fn = none := by
  unfold deleteFS at h
  by_cases hc : fs.files.any (fun e => decide (e.1 = fn)) = true
  · simp only [hc, if_true, Except.ok.injEq] at h
    subst h
    unfold readFileFS
    rw [List.find?_eq_none.mpr]
    · rfl
    · intro e he
      simp only [List.mem_filter, Bool.not_eq_eq_eq_not, Bool.not_true,
        decide_eq_false_iff_not] at he ⊢
      simpa using he.2
  · simp only [Bool.not_eq_true] at hc
    simp [hc] at h

/-! ## C9, C7, C4 -/

/-- C9: `add` returns a filename that ends with the fixed `.md` extension,
appending it exactly once — an input already ending in `.md` is returned
unchanged, any other input gets `.md` appended — and the serialized
document is written under that normalized name. -/
theorem add_normalizes_filename (fs : FileSys) (p : AddParams) (today : Str) :
    (".md".toList).isSuffixOf (addModule fs p today).2 = true ∧
    (addModule fs p today).2 =
      (if ".md".toList.isSuffixOf p.filename then p.filename
       else p.filename ++ ".md".toList) ∧
    readFileFS (addModule fs p today).1 (addModule fs p today).2 =
      some (serializeLearning (addMeta p today) (buildContent p)) := by
  unfold addModule normalizeFilename
  by_cases h : ".md".toList.isSuffixOf p.filename = true
  · exact ⟨by rw [if_pos h]; exact h, by rw [if_pos h],
      readFileFS_writeFS _ _ _⟩
  · refine ⟨?_, by rw [if_neg h], readFileFS_writeFS _ _ _⟩
    rw [if_neg h]
    exact List.isSuffixOf_iff_suffix.mpr (List.suffix_append _ _)

/-- C7: the dual-scope `get` returns the learning of every scope whose read
succeeded — both when both succeed — and reports "not found" exactly when
both scopes' reads fail; one side failing is tolerated, not propagated. -/
theorem dualGet_tolerates_one_failure (g l : Except String Learning) :
    (g.isOk = true ∨ l.isOk = true → dualGet g l = .ok (g.toOption, l.toOption)) ∧
    (g.isOk = false → l.isOk = false → ∃ e, dualGet g l = .error e) := by
  cases g <;> cases l <;>
    simp [dualGet, Except.isOk, Except.toBool, Except.toOption]

/-- C4: when the git synchronization of the git-backed repository fails,
`write` and `delete` still leave the filesystem mutation in place — the
written file holds the new text, the deleted file is gone — and the sync
error is handed to the caller unchanged; nothing is rolled back. -/
theorem github_sync_failure_keeps_mutation (fs : FileSys) (env : GitEnv)
    (fn : Str) (md : LearningMetadata) (c : Str) (e : String)
    (hsync : commitAndPush env = .error e) :
    (githubWrite fs env fn md c).2 = .error e ∧
    readFileFS (githubWrite fs env fn md c).1 fn =
      some (serializeLearning md c) ∧
    (∀ fs2 sync, githubDelete fs env fn = .ok (fs2, sync) →
       sync = .error e ∧ readFileFS fs2 fn = none) := by
  refine ⟨hsync, readFileFS_writeFS _ _ _, ?_⟩
  intro fs2 sync hdel
  unfold githubDelete at hdel
  cases hd : deleteFS fs fn with
  | error msg => rw [hd] at hdel; exact absurd hdel (by simp [Except.map])
  | ok fsd =>
    rw [hd] at hdel
    simp only [Except.map, Except.ok.injEq, Prod.mk.injEq] at hdel
    obtain ⟨h1, h2⟩ := hdel
    subst h1
    exact ⟨h2 ▸ hsync, readFileFS_deleteFS fs fsd fn hd⟩

/-- Witness for C4 at a concrete repository and a failing `git push`. -/
theorem github_sync_failure_keeps_mutation_witness :
    (githubWrite ⟨[]⟩
        ⟨.ok [], .ok " M a.md".toList, .ok [], .error "network down"⟩
        "a.md".toList
        ⟨"T".toList, "t".toList, [], "2024-01-01".toList, []⟩
        "body".toList).2 = .error "Git command failed: network down" ∧
    readFileFS (githubWrite ⟨[]⟩
        ⟨.ok [], .ok " M a.md".toList, .ok [], .error "network down"⟩
        "a.md".toList
        ⟨"T".toList, "t".toList, [], "2024-01-01".toList, []⟩
        "body".toList).1 "a.md".toList =
      some (serializeLearning ⟨"T".toList, "t".toList, [], "2024-01-01".toList, []⟩
        "body".toList) ∧
    (∀ fs2 sync,
       githubDelete ⟨[]⟩
           ⟨.ok [], .ok " M a.md".toList, .ok [], .error "network down"⟩
           "a.md".toList = .ok (fs2, sync) →
       sync = .error "Git command failed: network down" ∧
       readFileFS fs2 "a.md".toList = none) :=
  github_sync_failure_keeps_mutation ⟨[]⟩
    ⟨.ok [], .ok " M a.md".toList, .ok [], .error "network down"⟩
    "a.md".toList ⟨"T".toList, "t".toList, [], "2024-01-01".toList, []⟩
    "body".toList "Git command failed: network down" (by decide)

/-! ## Codec helper lemmas -/

theorem jsTrim_length_le (s : Str) : (jsTrim s).length ≤ s.length := by
  unfold jsTrim
  calc ((s.dropWhile jsWs).reverse.dropWhile jsWs).reverse.length
      = ((s.dropWhile jsWs).reverse.dropWhile jsWs).length := List.length_reverse _
    _ ≤ (s.dropWhile jsWs).reverse.length :=
        (List.dropWhile_suffix jsWs).length_le
    _ = (s.dropWhile jsWs).length := List.length_reverse _
    _ ≤ s.length := (List.dropWhile_suffix jsWs).length_le

theorem dropWhile_of_trim_fix {s : Str} (h : jsTrim s = s) :
    s.dropWhile jsWs = s := by
  have h1 : (s.dropWhile jsWs).length ≤ s.length :=
    (List.dropWhile_suffix jsWs).length_le
  have h2 : s.length ≤ (s.dropWhile jsWs).length := by
    conv_lhs => rw [← h]
    unfold jsTrim
    calc ((s.dropWhile jsWs).reverse.dropWhile jsWs).reverse.length
        = ((s.dropWhile jsWs).reverse.dropWhile jsWs).length := List.length_reverse _
      _ ≤ (s.dropWhile jsWs).reverse.length :=
          (List.dropWhile_suffix jsWs).length_le
      _ = (s.dropWhile jsWs).length := List.length_reverse _
  exact (List.dropWhile_suffix jsWs).eq_of_length (le_antisymm h1 h2)

theorem dropWhile_ws_of_clean {s : Str} (h : cleanScalar s = true) :
    s.dropWhile jsWs = s := by
  unfold cleanScalar at h
  simp only [Bool.and_eq_true, decide_eq_true_eq] at h
  exact dropWhile_of_trim_fix h.1.2

theorem jsTrim_of_clean {s : Str} (h : cleanScalar s = true) : jsTrim s = s := by
  unfold cleanScalar at h
  simp only [Bool.and_eq_true, decide_eq_true_eq] at h
  exact h.1.2

theorem clean_ne_nil {s : Str} (h : cleanScalar s = true) : s ≠ [] := by
  unfold cleanScalar at h
  simp only [Bool.and_eq_true, Bool.not_eq_true', List.isEmpty_eq_false] at h
  exact h.1.1

theorem jsTrim_cons_ws {c : Char} (hc : jsWs c = true) (s : Str) :
    jsTrim (c :: s) = jsTrim s := by
  unfold jsTrim
  rw [List.dropWhile_cons, if_pos hc]

theorem takeWhile_all_append (p : Char → Bool) (k : Str) (x : Char) (r : Str)
    (hk : k.all p = true) (hx : p x = false) :
    (k ++ x :: r).takeWhile p = k := by
  induction k with
  | nil => simp [List.takeWhile_cons, hx]
  | cons c cs ih =>
    simp only [List.all_cons, Bool.and_eq_true] at hk
    simp [List.takeWhile_cons, hk.1, ih hk.2]

theorem dropWhile_all_append (p : Char → Bool) (k : Str) (x : Char) (r : Str)
    (hk : k.all p = true) (hx : p x = false) :
    (k ++ x :: r).dropWhile p = x :: r := by
  induction k with
  | nil => simp [List.dropWhile_cons, hx]
  | cons c cs ih =>
    simp only [List.all_cons, Bool.and_eq_true] at hk
    simp [List.dropWhile_cons, hk.1, ih hk.2]

theorem dropWhile_ws_append_of_clean {s : Str} (h : s.dropWhile jsWs = s) :
    (' ' :: s).dropWhile jsWs = s := by
  rw [List.dropWhile_cons, if_pos (by decide)]
  exact h

theorem any_false_of_all_not {p : Char → Bool} {s : Str}
    (h : s.all (fun c => !p c) = true) : s.any p = false := by
  induction s with
  | nil => rfl
  | cons c cs ih =>
    simp only [List.all_cons, Bool.and_eq_true, Bool.not_eq_true'] at h
    simp [List.any_cons, h.1, ih (by simpa using h.2)]

/-- `parseLine` on a canonical scalar line `key: value` with a clean value. -/
theorem parseLine_scalar (k s : Str) (hk1 : k ≠ []) (hk2 : k.all wordChar = true)
    (hs : s.dropWhile jsWs = s) (hs0 : s ≠ [])
    (hterm : s.all (fun c => !lineTerm c) = true) :
    parseLine (k ++ ':' :: ' ' :: s) = some (k, s) := by
  unfold parseLine
  rw [dropWhile_all_append wordChar k ':' (' ' :: s) hk2 (by decide),
      takeWhile_all_append wordChar k ':' (' ' :: s) hk2 (by decide)]
  have hv : (' ' :: s).dropWhile jsWs = s := dropWhile_ws_append_of_clean hs
  simp only [hv]
  rw [if_neg (by simpa using hk1), if_neg (by simpa using hs0),
      if_neg (by rw [any_false_of_all_not hterm]; simp)]

/-- `parseLine` on a canonical array line `key: [inner]` with a
terminator-free `inner`. -/
theorem parseLine_array (k inner : Str) (hk1 : k ≠ []) (hk2 : k.all wordChar = true)
    (hterm : inner.all (fun c => !lineTerm c) = true) :
    parseLine (k ++ ':' :: ' ' :: '[' :: (inner ++ [']'])) =
      some (k, '[' :: (inner ++ [']'])) := by
  unfold parseLine
  rw [dropWhile_all_append wordChar k ':' (' ' :: '[' :: (inner ++ [']'])) hk2 (by decide),
      takeWhile_all_append wordChar k ':' (' ' :: '[' :: (inner ++ [']'])) hk2 (by decide)]
  have hv : (' ' :: '[' :: (inner ++ [']'])).dropWhile jsWs = '[' :: (inner ++ [']']) := by
    rw [List.dropWhile_cons, if_pos (by decide), List.dropWhile_cons, if_neg (by decide)]
  simp only [hv]
  rw [if_neg (by simpa using hk1), if_neg (by simp),
      if_neg (by
        simp only [List.any_cons, List.any_append, any_false_of_all_not hterm]
        decide)]

theorem splitOnChar_cons_eq (sep c : Char) (cs : Str) :
    splitOnChar sep (c :: cs) =
      (if c = sep then [] :: splitOnChar sep cs
       else
         match splitOnChar sep cs with
         | [] => [[c]]
         | l :: ls => (c :: l) :: ls) := rfl

theorem splitFirst_cons_eq (pat : Str) (c : Char) (cs : Str) :
    splitFirst pat (c :: cs) =
      (if pat.isPrefixOf (c :: cs) then some ([], (c :: cs).drop pat.length)
       else
         match splitFirst pat cs with
         | some (b, a) => some (c :: b, a)
         | none => none) := rfl

theorem splitOnChar_ne_nil (sep : Char) (l : Str) : splitOnChar sep l ≠ [] := by
  induction l with
  | nil => simp [splitOnChar]
  | cons c cs ih =>
    rw [splitOnChar_cons_eq]
    by_cases h : c = sep
    · simp [h]
    · rw [if_neg h]
      cases hs : splitOnChar sep cs with
      | nil => simp
      | cons x xs => simp

theorem splitOnChar_no_sep {sep : Char} {l : Str} (h : sep ∉ l) :
    splitOnChar sep l = [l] := by
  induction l with
  | nil => rfl
  | cons c cs ih =>
    have hc : c ≠ sep := by rintro rfl; exact h (List.mem_cons_self _ _)
    have hcs : sep ∉ cs := fun hm => h (List.mem_cons_of_mem c hm)
    rw [splitOnChar_cons_eq, if_neg hc, ih hcs]

theorem splitOnChar_append {sep : Char} {l rest : Str} (h : sep ∉ l) :
    splitOnChar sep (l ++ sep :: rest) = l :: splitOnChar sep rest := by
  induction l with
  | nil => simp [splitOnChar_cons_eq]
  | cons c cs ih =>
    have hc : c ≠ sep := by rintro rfl; exact h (List.mem_cons_self _ _)
    have hcs : sep ∉ cs := fun hm => h (List.mem_cons_of_mem c hm)
    simp only [List.cons_append]
    rw [splitOnChar_cons_eq, if_neg hc, ih hcs]

/-- Peeling one newline-free line off `splitFirst` when the pattern starts
with a newline. -/
theorem splitFirst_peel {p : Str} {l rest : Str} (hl : '\n' ∉ l) :
    splitFirst ('\n' :: p) (l ++ '\n' :: rest) =
      (if p.isPrefixOf rest then some (l, rest.drop p.length)
       else
         match splitFirst ('\n' :: p) rest with
         | some (b, a) => some (l ++ '\n' :: b, a)
         | none => none) := by
  induction l with
  | nil =>
    simp only [List.nil_append]
    rw [splitFirst_cons_eq]
    by_cases hp : List.isPrefixOf p rest = true
    · rw [if_pos (show List.isPrefixOf ('\n' :: p) ('\n' :: rest) = true by
        simp [List.isPrefixOf_cons₂, hp]), if_pos hp]
      simp
    · rw [if_neg (show ¬ List.isPrefixOf ('\n' :: p) ('\n' :: rest) = true by
        simpa [List.isPrefixOf_cons₂] using hp), if_neg hp]
  | cons c cs ih =>
    have hc : c ≠ '\n' := by rintro rfl; exact hl (List.mem_cons_self _ _)
    have hcs : '\n' ∉ cs := fun hm => hl (List.mem_cons_of_mem c hm)
    simp only [List.cons_append]
    rw [splitFirst_cons_eq]
    rw [if_neg (show ¬ List.isPrefixOf ('\n' :: p) (c :: (cs ++ '\n' :: rest)) = true by
      simp only [List.isPrefixOf_cons₂, Bool.and_eq_true, beq_iff_eq]
      rintro ⟨h1, -⟩
      exact hc h1.symm)]
    rw [ih hcs]
    by_cases hp : List.isPrefixOf p rest = true
    · rw [if_pos hp, if_pos hp]
    · rw [if_neg hp, if_neg hp]
      cases hs : splitFirst ('\n' :: p) rest with
      | none => rfl
      | some pair => rfl

theorem splitOnChar_comma_join (t : List Str) :
    ∀ a : Str, ',' ∉ a → (∀ x ∈ t, ',' ∉ x) →
      splitOnChar ',' (joinSep (", ".toList) (a :: t)) =
        a :: t.map (fun x => ' ' :: x) := by
  induction t with
  | nil =>
    intro a ha _
    simp [joinSep, splitOnChar_no_sep ha]
  | cons b t ih =>
    intro a ha ht
    have hj : joinSep (", ".toList) (a :: b :: t)
        = a ++ ',' :: ' ' :: joinSep (", ".toList) (b :: t) := by
      show a ++ ", ".toList ++ joinSep (", ".toList) (b :: t) = _
      simp [List.append_assoc]
    rw [hj, splitOnChar_append ha]
    have hih := ih b (ht b (List.mem_cons_self _ _))
      (fun x hx => ht x (List.mem_cons_of_mem _ hx))
    rw [splitOnChar_cons_eq, if_neg (by decide), hih]
    simp

theorem comma_not_mem_of_cleanEntry {x : Str} (h : cleanEntry x = true) : ',' ∉ x := by
  unfold cleanEntry at h
  simp only [Bool.and_eq_true, List.all_eq_true] at h
  intro hm
  have := h.2 ',' hm
  simp at this

theorem cleanScalar_of_cleanEntry {x : Str} (h : cleanEntry x = true) :
    cleanScalar x = true := by
  unfold cleanEntry at h
  exact (Bool.and_eq_true _ _ ▸ h).1

theorem parseArrayValue_concat (J : Str) :
    parseArrayValue ('[' :: (J ++ [']'])) =
      ((splitOnChar ',' J).map jsTrim).filter (fun s => !s.isEmpty) := by
  have h1 : (J ++ [']']).getLast? = some ']' := List.getLast?_concat _
  have h2 : (J ++ [']']).dropLast = J := List.dropLast_concat
  show ((splitOnChar ','
      (match (J ++ [']']).getLast? with
       | some ']' => (J ++ [']']).dropLast
       | _ => J ++ [']'])).map jsTrim).filter (fun s => !s.isEmpty) = _
  rw [h1, h2]
  rfl

/-- `parseArrayValue` recovers a list of clean entries from its rendered
`[a, b, c]` form. -/
theorem parseArrayValue_entries (entries : List Str)
    (h : ∀ x ∈ entries, cleanEntry x = true) :
    parseArrayValue ('[' :: (joinSep (", ".toList) entries ++ [']'])) = entries := by
  rw [parseArrayValue_concat]
  cases entries with
  | nil => rfl
  | cons a t =>
    rw [splitOnChar_comma_join t a
      (comma_not_mem_of_cleanEntry (h a (List.mem_cons_self _ _)))
      (fun x hx => comma_not_mem_of_cleanEntry (h x (List.mem_cons_of_mem _ hx)))]
    have ha : jsTrim a = a :=
      jsTrim_of_clean (cleanScalar_of_cleanEntry (h a (List.mem_cons_self _ _)))
    have ht : ∀ x ∈ t, jsTrim (' ' :: x) = x := fun x hx => by
      rw [jsTrim_cons_ws (by decide)]
      exact jsTrim_of_clean
        (cleanScalar_of_cleanEntry (h x (List.mem_cons_of_mem _ hx)))
    have hmap : t.map (jsTrim ∘ fun x => ' ' :: x) = t.map id :=
      List.map_congr_left (fun x hx => by
        simp only [Function.comp_apply, id]
        exact ht x hx)
    rw [List.map_cons, ha, List.map_map, hmap, List.map_id]
    refine List.filter_eq_self.mpr ?_
    intro x hx
    have hc : cleanScalar x = true := cleanScalar_of_cleanEntry (h x hx)
    have := clean_ne_nil hc
    simpa using this

theorem all_not_term_of_clean {s : Str} (h : cleanScalar s = true) :
    s.all (fun c => !lineTerm c) = true := by
  unfold cleanScalar at h
  exact (Bool.and_eq_true _ _ ▸ h).2

theorem joinSep_all (p : Char → Bool) (sep : Str) (l : List Str)
    (hsep : sep.all p = true) (h : ∀ x ∈ l, x.all p = true) :
    (joinSep sep l).all p = true := by
  induction l with
  | nil => rfl
  | cons x xs ih =>
    cases xs with
    | nil => exact h x (List.mem_cons_self _ _)
    | cons y ys =>
      show ((x ++ sep) ++ joinSep sep (y :: ys)).all p = true
      rw [List.all_append, List.all_append]
      refine Bool.and_eq_true _ _ ▸ ⟨Bool.and_eq_true _ _ ▸ ⟨?_, hsep⟩, ?_⟩
      · exact h x (List.mem_cons_self _ _)
      · exact ih (fun z hz => h z (List.mem_cons_of_mem _ hz))

theorem newline_not_mem_of_all_not_term {s : Str}
    (h : s.all (fun c => !lineTerm c) = true) : '\n' ∉ s := by
  intro hm
  have := List.all_eq_true.mp h _ hm
  simp [lineTerm] at this

theorem newline_not_mem_line {k s : Str} (hk : '\n' ∉ k)
    (hs : s.all (fun c => !lineTerm c) = true) : '\n' ∉ k ++ s := by
  intro hm
  rcases List.mem_append.mp hm with h | h
  · exact hk h
  · exact newline_not_mem_of_all_not_term hs h

theorem updateMeta_title {pm : PartialMeta} {line v : Str}
    (h : parseLine line = some ("title".toList, v)) :
    updateMeta pm line = { pm with title := some (jsTrim v) } := by
  unfold updateMeta
  rw [h]
  rfl

theorem updateMeta_topic {pm : PartialMeta} {line v : Str}
    (h : parseLine line = some ("topic".toList, v)) :
    updateMeta pm line = { pm with topic := some (jsTrim v) } := by
  unfold updateMeta
  rw [h]
  rfl

theorem updateMeta_created {pm : PartialMeta} {line v : Str}
    (h : parseLine line = some ("created".toList, v)) :
    updateMeta pm line = { pm with created := some (jsTrim v) } := by
  unfold updateMeta
  rw [h]
  rfl

theorem updateMeta_tags {pm : PartialMeta} {line v : Str}
    (h : parseLine line = some ("tags".toList, v)) :
    updateMeta pm line = { pm with tags := some (parseArrayValue v) } := by
  unfold updateMeta
  rw [h]
  rfl

theorem updateMeta_related {pm : PartialMeta} {line v : Str}
    (h : parseLine line = some ("related".toList, v)) :
    updateMeta pm line = { pm with related := some (parseArrayValue v) } := by
  unfold updateMeta
  rw [h]
  rfl

/-- The line-by-line fold over the five canonical front-matter lines of a
clean metadata record recovers every field. -/
theorem collectMeta_canonical (m : LearningMetadata)
    (h1 : cleanScalar m.title = true) (h2 : cleanScalar m.topic = true)
    (h3 : cleanScalar m.created = true)
    (h4 : ∀ t ∈ m.tags, cleanEntry t = true)
    (h5 : ∀ r ∈ m.related, cleanEntry r = true) :
    collectMeta
      (("title: ".toList ++ m.title) ++ '\n' ::
       (("topic: ".toList ++ m.topic) ++ '\n' ::
        (("tags: [".toList ++ (joinSep (", ".toList) m.tags ++ [']'])) ++ '\n' ::
         (("created: ".toList ++ m.created) ++ '\n' ::
          ("related: [".toList ++ (joinSep (", ".toList) m.related ++ [']'])))))) =
      { title := some m.title, topic := some m.topic, created := some m.created,
        tags := some m.tags, related := some m.related } := by
  have htagsAll : (joinSep (", ".toList) m.tags).all (fun c => !lineTerm c) = true :=
    joinSep_all _ _ _ (by decide)
      (fun x hx => all_not_term_of_clean (cleanScalar_of_cleanEntry (h4 x hx)))
  have hrelAll : (joinSep (", ".toList) m.related).all (fun c => !lineTerm c) = true :=
    joinSep_all _ _ _ (by decide)
      (fun x hx => all_not_term_of_clean (cleanScalar_of_cleanEntry (h5 x hx)))
  have htagsAllB : (joinSep (", ".toList) m.tags ++ [']']).all (fun c => !lineTerm c) = true := by
    rw [List.all_append, htagsAll]
    decide
  have hrelAllB : (joinSep (", ".toList) m.related ++ [']']).all (fun c => !lineTerm c) = true := by
    rw [List.all_append, hrelAll]
    decide
  have hn1 : '\n' ∉ "title: ".toList ++ m.title :=
    newline_not_mem_line (by decide) (all_not_term_of_clean h1)
  have hn2 : '\n' ∉ "topic: ".toList ++ m.topic :=
    newline_not_mem_line (by decide) (all_not_term_of_clean h2)
  have hn3 : '\n' ∉ "tags: [".toList ++ (joinSep (", ".toList) m.tags ++ [']']) :=
    newline_not_mem_line (by decide) htagsAllB
  have hn4 : '\n' ∉ "created: ".toList ++ m.created :=
    newline_not_mem_line (by decide) (all_not_term_of_clean h3)
  have hn5 : '\n' ∉ "related: [".toList ++ (joinSep (", ".toList) m.related ++ [']']) :=
    newline_not_mem_line (by decide) hrelAllB
  have hp1 : parseLine ("title: ".toList ++ m.title) = some ("title".toList, m.title) :=
    parseLine_scalar "title".toList m.title (by decide) (by decide)
      (dropWhile_ws_of_clean h1) (clean_ne_nil h1) (all_not_term_of_clean h1)
  have hp2 : parseLine ("topic: ".toList ++ m.topic) = some ("topic".toList, m.topic) :=
    parseLine_scalar "topic".toList m.topic (by decide) (by decide)
      (dropWhile_ws_of_clean h2) (clean_ne_nil h2) (all_not_term_of_clean h2)
  have hp3 : parseLine ("tags: [".toList ++ (joinSep (", ".toList) m.tags ++ [']'])) =
      some ("tags".toList, '[' :: (joinSep (", ".toList) m.tags ++ [']'])) :=
    parseLine_array "tags".toList (joinSep (", ".toList) m.tags)
      (by decide) (by decide) htagsAll
  have hp4 : parseLine ("created: ".toList ++ m.created) =
      some ("created".toList, m.created) :=
    parseLine_scalar "created".toList m.created (by decide) (by decide)
      (dropWhile_ws_of_clean h3) (clean_ne_nil h3) (all_not_term_of_clean h3)
  have hp5 : parseLine ("related: [".toList ++ (joinSep (", ".toList) m.related ++ [']'])) =
      some ("related".toList, '[' :: (joinSep (", ".toList) m.related ++ [']'])) :=
    parseLine_array "related".toList (joinSep (", ".toList) m.related)
      (by decide) (by decide) hrelAll
  unfold collectMeta
  rw [splitOnChar_append hn1, splitOnChar_append hn2, splitOnChar_append hn3,
      splitOnChar_append hn4, splitOnChar_no_sep hn5]
  rw [List.foldl_cons, List.foldl_cons, List.foldl_cons, List.foldl_cons,
      List.foldl_cons, List.foldl_nil]
  rw [updateMeta_title hp1, updateMeta_topic hp2, updateMeta_tags hp3,
      updateMeta_created hp4, updateMeta_related hp5]
  rw [jsTrim_of_clean h1, jsTrim_of_clean h2, jsTrim_of_clean h3,
      parseArrayValue_entries m.tags h4, parseArrayValue_entries m.related h5]

theorem dashes_append (x : Str) : "---".toList ++ x = '-' :: '-' :: '-'::x := rfl

theorem nl_append (x : Str) : "\n".toList ++ x = '\n'::x := rfl

theorem nlnl_append (x : Str) : "\n\n".toList ++ x = '\n' :: '\n'::x := rfl

theorem bracket_append (x : Str) : "]".toList ++ x = ']'::x := rfl

theorem serializeLearning_shape (m : LearningMetadata) (c : Str) :
    serializeLearning m c =
      '-' :: '-' :: '-' :: '\n' ::
      (("title: ".toList ++ m.title) ++ '\n' ::
       (("topic: ".toList ++ m.topic) ++ '\n' ::
        (("tags: [".toList ++ (joinSep (", ".toList) m.tags ++ [']'])) ++ '\n' ::
         (("created: ".toList ++ m.created) ++ '\n' ::
          (("related: [".toList ++ (joinSep (", ".toList) m.related ++ [']'])) ++ '\n' ::
           ('-' :: '-' :: '-' :: '\n' :: '\n' :: c)))))) := by
  simp only [serializeLearning, joinSep, List.append_assoc, List.cons_append,
    List.singleton_append, List.nil_append, nl_append, nlnl_append, bracket_append,
    dashes_append]

theorem isEmpty_title_line (x y : Str) :
    (("title: ".toList ++ x) ++ y).isEmpty = false := rfl

theorem falsyStr_some (x : Str) : falsyStr (some x) = x.isEmpty := rfl

/-- C1 (amended): for metadata whose title, topic and created are
non-empty, line-terminator-free and equal to their own trim, and whose
tags and related entries are additionally comma-free, decoding the
serialized document succeeds and returns the metadata field-for-field and
the content trimmed of surrounding whitespace. -/
theorem roundtrip_clean_metadata (m : LearningMetadata) (c : Str)
    (h1 : cleanScalar m.title = true) (h2 : cleanScalar m.topic = true)
    (h3 : cleanScalar m.created = true)
    (h4 : ∀ t ∈ m.tags, cleanEntry t = true)
    (h5 : ∀ r ∈ m.related, cleanEntry r = true) :
    parseLearning (serializeLearning m c) = .ok (m, jsTrim c) := by
  have htagsAll : (joinSep (", ".toList) m.tags).all (fun ch => !lineTerm ch) = true :=
    joinSep_all _ _ _ (by decide)
      (fun x hx => all_not_term_of_clean (cleanScalar_of_cleanEntry (h4 x hx)))
  have hrelAll : (joinSep (", ".toList) m.related).all (fun ch => !lineTerm ch) = true :=
    joinSep_all _ _ _ (by decide)
      (fun x hx => all_not_term_of_clean (cleanScalar_of_cleanEntry (h5 x hx)))
  have htagsAllB : (joinSep (", ".toList) m.tags ++ [']']).all (fun ch => !lineTerm ch) = true := by
    rw [List.all_append, htagsAll]; decide
  have hrelAllB : (joinSep (", ".toList) m.related ++ [']']).all (fun ch => !lineTerm ch) = true := by
    rw [List.all_append, hrelAll]; decide
  have hn1 : '\n' ∉ "title: ".toList ++ m.title :=
    newline_not_mem_line (by decide) (all_not_term_of_clean h1)
  have hn2 : '\n' ∉ "topic: ".toList ++ m.topic :=
    newline_not_mem_line (by decide) (all_not_term_of_clean h2)
  have hn3 : '\n' ∉ "tags: [".toList ++ (joinSep (", ".toList) m.tags ++ [']']) :=
    newline_not_mem_line (by decide) htagsAllB
  have hn4 : '\n' ∉ "created: ".toList ++ m.created :=
    newline_not_mem_line (by decide) (all_not_term_of_clean h3)
  have hn5 : '\n' ∉ "related: [".toList ++ (joinSep (", ".toList) m.related ++ [']']) :=
    newline_not_mem_line (by decide) hrelAllB
  -- the closing delimiter is found right after the fifth line
  have s5 : splitFirst ('\n' :: "---\n".toList)
      (("related: [".toList ++ (joinSep (", ".toList) m.related ++ [']'])) ++ '\n' ::
        ('-' :: '-' :: '-' :: '\n' :: '\n'::c)) =
      some ("related: [".toList ++ (joinSep (", ".toList) m.related ++ [']']), '\n' :: c) := by
    rw [splitFirst_peel hn5,
      if_pos (show List.isPrefixOf ("---\n".toList)
        ('-' :: '-' :: '-' :: '\n' :: '\n'::c) = true from rfl)]
    rfl
  have s4 : splitFirst ('\n' :: "---\n".toList)
      (("created: ".toList ++ m.created) ++ '\n' ::
        (("related: [".toList ++ (joinSep (", ".toList) m.related ++ [']'])) ++ '\n' ::
          ('-' :: '-' :: '-' :: '\n' :: '\n'::c))) =
      some (("created: ".toList ++ m.created) ++ '\n' ::
        ("related: [".toList ++ (joinSep (", ".toList) m.related ++ [']'])), '\n' :: c) := by
    rw [splitFirst_peel hn4,
      if_neg (show ¬ List.isPrefixOf ("---\n".toList)
        (("related: [".toList ++ (joinSep (", ".toList) m.related ++ [']'])) ++ '\n' ::
          ('-' :: '-' :: '-' :: '\n' :: '\n'::c)) = true by
        rw [show List.isPrefixOf ("---\n".toList)
          (("related: [".toList ++ (joinSep (", ".toList) m.related ++ [']'])) ++ '\n' ::
            ('-' :: '-' :: '-' :: '\n' :: '\n'::c)) = false from rfl]
        simp),
      s5]
  have s3 : splitFirst ('\n' :: "---\n".toList)
      (("tags: [".toList ++ (joinSep (", ".toList) m.tags ++ [']'])) ++ '\n' ::
        (("created: ".toList ++ m.created) ++ '\n' ::
          (("related: [".toList ++ (joinSep (", ".toList) m.related ++ [']'])) ++ '\n' ::
            ('-' :: '-' :: '-' :: '\n' :: '\n'::c)))) =
      some (("tags: [".toList ++ (joinSep (", ".toList) m.tags ++ [']'])) ++ '\n' ::
        (("created: ".toList ++ m.created) ++ '\n' ::
          ("related: [".toList ++ (joinSep (", ".toList) m.related ++ [']']))), '\n' :: c) := by
    rw [splitFirst_peel hn3,
      if_neg (show ¬ List.isPrefixOf ("---\n".toList)
        (("created: ".toList ++ m.created) ++ '\n' ::
          (("related: [".toList ++ (joinSep (", ".toList) m.related ++ [']'])) ++ '\n' ::
            ('-' :: '-' :: '-' :: '\n' :: '\n'::c))) = true by
        rw [show List.isPrefixOf ("---\n".toList)
          (("created: ".toList ++ m.created) ++ '\n' ::
            (("related: [".toList ++ (joinSep (", ".toList) m.related ++ [']'])) ++ '\n' ::
              ('-' :: '-' :: '-' :: '\n' :: '\n'::c))) = false from rfl]
        simp),
      s4]
  have s2 : splitFirst ('\n' :: "---\n".toList)
      (("topic: ".toList ++ m.topic) ++ '\n' ::
        (("tags: [".toList ++ (joinSep (", ".toList) m.tags ++ [']'])) ++ '\n' ::
          (("created: ".toList ++ m.created) ++ '\n' ::
            (("related: [".toList ++ (joinSep (", ".toList) m.related ++ [']'])) ++ '\n' ::
              ('-' :: '-' :: '-' :: '\n' :: '\n'::c))))) =
      some (("topic: ".toList ++ m.topic) ++ '\n' ::
        (("tags: [".toList ++ (joinSep (", ".toList) m.tags ++ [']'])) ++ '\n' ::
          (("created: ".toList ++ m.created) ++ '\n' ::
            ("related: [".toList ++ (joinSep (", ".toList) m.related ++ [']'])))), '\n' :: c) := by
    rw [splitFirst_peel hn2,
      if_neg (show ¬ List.isPrefixOf ("---\n".toList)
        (("tags: [".toList ++ (joinSep (", ".toList) m.tags ++ [']'])) ++ '\n' ::
          (("created: ".toList ++ m.created) ++ '\n' ::
            (("related: [".toList ++ (joinSep (", ".toList) m.related ++ [']'])) ++ '\n' ::
              ('-' :: '-' :: '-' :: '\n' :: '\n'::c)))) = true by
        rw [show List.isPrefixOf ("---\n".toList)
          (("tags: [".toList ++ (joinSep (", ".toList) m.tags ++ [']'])) ++ '\n' ::
            (("created: ".toList ++ m.created) ++ '\n' ::
              (("related: [".toList ++ (joinSep (", ".toList) m.related ++ [']'])) ++ '\n' ::
                ('-' :: '-' :: '-' :: '\n' :: '\n'::c)))) = false from rfl]
        simp),
      s3]
  have s1 : splitFirst ('\n' :: "---\n".toList)
      (("title: ".toList ++ m.title) ++ '\n' ::
        (("topic: ".toList ++ m.topic) ++ '\n' ::
          (("tags: [".toList ++ (joinSep (", ".toList) m.tags ++ [']'])) ++ '\n' ::
            (("created: ".toList ++ m.created) ++ '\n' ::
              (("related: [".toList ++ (joinSep (", ".toList) m.related ++ [']'])) ++ '\n' ::
                ('-' :: '-' :: '-' :: '\n' :: '\n'::c)))))) =
      some (("title: ".toList ++ m.title) ++ '\n' ::
        (("topic: ".toList ++ m.topic) ++ '\n' ::
          (("tags: [".toList ++ (joinSep (", ".toList) m.tags ++ [']'])) ++ '\n' ::
            (("created: ".toList ++ m.created) ++ '\n' ::
              ("related: [".toList ++ (joinSep (", ".toList) m.related ++ [']']))))), '\n' :: c) := by
    rw [splitFirst_peel hn1,
      if_neg (show ¬ List.isPrefixOf ("---\n".toList)
        (("topic: ".toList ++ m.topic) ++ '\n' ::
          (("tags: [".toList ++ (joinSep (", ".toList) m.tags ++ [']'])) ++ '\n' ::
            (("created: ".toList ++ m.created) ++ '\n' ::
              (("related: [".toList ++ (joinSep (", ".toList) m.related ++ [']'])) ++ '\n' ::
                ('-' :: '-' :: '-' :: '\n' :: '\n'::c))))) = true by
        rw [show List.isPrefixOf ("---\n".toList)
          (("topic: ".toList ++ m.topic) ++ '\n' ::
            (("tags: [".toList ++ (joinSep (", ".toList) m.tags ++ [']'])) ++ '\n' ::
              (("created: ".toList ++ m.created) ++ '\n' ::
                (("related: [".toList ++ (joinSep (", ".toList) m.related ++ [']'])) ++ '\n' ::
                  ('-' :: '-' :: '-' :: '\n' :: '\n'::c))))) = false from rfl]
        simp),
      s2]
  unfold parseLearning
  rw [serializeLearning_shape m c]
  rw [if_pos (show List.isPrefixOf ("---\n".toList)
    ('-' :: '-' :: '-' :: '\n' ::
      (("title: ".toList ++ m.title) ++ '\n' ::
       (("topic: ".toList ++ m.topic) ++ '\n' ::
        (("tags: [".toList ++ (joinSep (", ".toList) m.tags ++ [']'])) ++ '\n' ::
         (("created: ".toList ++ m.created) ++ '\n' ::
          (("related: [".toList ++ (joinSep (", ".toList) m.related ++ [']'])) ++ '\n' ::
           ('-' :: '-' :: '-' :: '\n' :: '\n' :: c))))))) = true from rfl)]
  rw [show ('-' :: '-' :: '-' :: '\n' ::
      (("title: ".toList ++ m.title) ++ '\n' ::
       (("topic: ".toList ++ m.topic) ++ '\n' ::
        (("tags: [".toList ++ (joinSep (", ".toList) m.tags ++ [']'])) ++ '\n' ::
         (("created: ".toList ++ m.created) ++ '\n' ::
          (("related: [".toList ++ (joinSep (", ".toList) m.related ++ [']'])) ++ '\n' ::
           ('-' :: '-' :: '-' :: '\n' :: '\n' :: c))))))).drop 4 =
      (("title: ".toList ++ m.title) ++ '\n' ::
       (("topic: ".toList ++ m.topic) ++ '\n' ::
        (("tags: [".toList ++ (joinSep (", ".toList) m.tags ++ [']'])) ++ '\n' ::
         (("created: ".toList ++ m.created) ++ '\n' ::
          (("related: [".toList ++ (joinSep (", ".toList) m.related ++ [']'])) ++ '\n' ::
           ('-' :: '-' :: '-' :: '\n' :: '\n' :: c)))))) from rfl]
  rw [show ("\n---\n".toList : Str) = '\n' :: "---\n".toList from rfl, s1]
  simp only [isEmpty_title_line, Bool.false_eq_true, if_false,
    collectMeta_canonical m h1 h2 h3 h4 h5, falsyStr_some,
    List.isEmpty_eq_false.mpr (clean_ne_nil h1),
    List.isEmpty_eq_false.mpr (clean_ne_nil h2),
    List.isEmpty_eq_false.mpr (clean_ne_nil h3),
    Bool.or_self, Bool.or_false, Bool.false_or, Option.getD_some,
    jsTrim_cons_ws (show jsWs '\n' = true by decide)]

/-- Witness for the amended round-trip at a concrete clean record. -/
theorem roundtrip_clean_metadata_witness :
    parseLearning (serializeLearning
      ⟨"Git Rebase".toList, "git".toList, ["git".toList, "rebase".toList],
       "2024-01-01".toList, ["a.md".toList]⟩ " body \n".toList) =
      .ok (⟨"Git Rebase".toList, "git".toList, ["git".toList, "rebase".toList],
        "2024-01-01".toList, ["a.md".toList]⟩, jsTrim " body \n".toList) :=
  roundtrip_clean_metadata
    ⟨"Git Rebase".toList, "git".toList, ["git".toList, "rebase".toList],
     "2024-01-01".toList, ["a.md".toList]⟩ " body \n".toList
    (by decide) (by decide) (by decide) (by decide) (by decide)

/-- Counterexample to C1 as frozen: the metadata record with title `"a "`
(non-empty, as the claim requires) does not round-trip — the decoder
returns the trimmed title `"a"`. -/
theorem roundtrip_counterexample :
    ("a ".toList : Str) ≠ [] ∧ ("t".toList : Str) ≠ [] ∧
    ("2020-01-01".toList : Str) ≠ [] ∧
    parseLearning (serializeLearning
        ⟨"a ".toList, "t".toList, [], "2020-01-01".toList, []⟩ "b".toList) ≠
      .ok (⟨"a ".toList, "t".toList, [], "2020-01-01".toList, []⟩,
        jsTrim "b".toList) := by
  refine ⟨by decide, by decide, by decide, ?_⟩
  decide

/-- C5: when the front-matter block is present but the line-by-line parse
leaves title, topic or created missing or empty, decoding fails with a
format error, whatever other fields are present. -/
theorem parse_missing_required_fails (markdown frontMatter rest : Str)
    (hpre : ("---\n".toList).isPrefixOf markdown = true)
    (hsplit : splitFirst ("\n---\n".toList) (markdown.drop 4) =
      some (frontMatter, rest))
    (hmiss : falsyStr (collectMeta frontMatter).title = true ∨
             falsyStr (collectMeta frontMatter).topic = true ∨
             falsyStr (collectMeta frontMatter).created = true) :
    ∃ e, parseLearning markdown = .error e := by
  unfold parseLearning
  rw [if_pos hpre, hsplit]
  by_cases hfm : frontMatter.isEmpty = true
  · exact ⟨"Invalid learning format: empty front matter", by simp [hfm]⟩
  · refine ⟨"Invalid learning: missing required metadata (title, topic, created)", ?_⟩
    have hor : (falsyStr (collectMeta frontMatter).title ||
        falsyStr (collectMeta frontMatter).topic ||
        falsyStr (collectMeta frontMatter).created) = true := by
      rcases hmiss with h | h | h <;> simp [h]
    simp [hfm, hor]

/-- Witness for C5: a document with topic and created but no title. -/
theorem parse_missing_required_fails_witness :
    ∃ e, parseLearning "---\ntopic: x\ncreated: 2020-01-01\n---\nbody".toList =
      .error e :=
  parse_missing_required_fails "---\ntopic: x\ncreated: 2020-01-01\n---\nbody".toList
    "topic: x\ncreated: 2020-01-01".toList "body".toList
    (by decide) (by decide) (Or.inl (by decide))

theorem containsSub_nil (hay : Str) : containsSub hay [] = true := by
  cases hay <;> rfl

theorem matchesCode_eq_matchesSpec (opts : SearchOptions) (l : Learning) :
    matchesCode opts l = matchesSpec opts l := by
  obtain ⟨ot, otg, os⟩ := opts
  unfold matchesCode matchesSpec optTruthy optTagsNonempty
  cases ot with
  | none =>
    cases otg with
    | none =>
      cases os with
      | none => simp
      | some q =>
        by_cases hq : q.isEmpty = true
        · rw [List.isEmpty_iff] at hq
          subst hq
          simp [toLowerStr, containsSub_nil]
        · simp only [Bool.not_eq_true] at hq
          simp [hq]
    | some ts =>
      by_cases hts : ts.isEmpty = true
      · rw [List.isEmpty_iff] at hts
        subst hts
        cases os with
        | none => simp
        | some q =>
          by_cases hq : q.isEmpty = true
          · rw [List.isEmpty_iff] at hq
            subst hq
            simp [toLowerStr, containsSub_nil]
          · simp only [Bool.not_eq_true] at hq
            simp [hq]
      · simp only [Bool.not_eq_true] at hts
        cases os with
        | none => simp [hts]
        | some q =>
          by_cases hq : q.isEmpty = true
          · rw [List.isEmpty_iff] at hq
            subst hq
            simp [hts, toLowerStr, containsSub_nil]
          · simp only [Bool.not_eq_true] at hq
            simp [hts, hq]
  | some t =>
    by_cases htm : t.isEmpty = true
    · rw [List.isEmpty_iff] at htm
      subst htm
      cases otg with
      | none =>
        cases os with
        | none => simp
        | some q =>
          by_cases hq : q.isEmpty = true
          · rw [List.isEmpty_iff] at hq
            subst hq
            simp [toLowerStr, containsSub_nil]
          · simp only [Bool.not_eq_true] at hq
            simp [hq]
      | some ts =>
        by_cases hts : ts.isEmpty = true
        · rw [List.isEmpty_iff] at hts
          subst hts
          cases os with
          | none => simp
          | some q =>
            by_cases hq : q.isEmpty = true
            · rw [List.isEmpty_iff] at hq
              subst hq
              simp [toLowerStr, containsSub_nil]
            · simp only [Bool.not_eq_true] at hq
              simp [hq]
        · simp only [Bool.not_eq_true] at hts
          cases os with
          | none => simp [hts]
          | some q =>
            by_cases hq : q.isEmpty = true
            · rw [List.isEmpty_iff] at hq
              subst hq
              simp [hts, toLowerStr, containsSub_nil]
            · simp only [Bool.not_eq_true] at hq
              simp [hts, hq]
    · simp only [Bool.not_eq_true] at htm
      cases otg with
      | none =>
        cases os with
        | none => simp [htm]
        | some q =>
          by_cases hq : q.isEmpty = true
          · rw [List.isEmpty_iff] at hq
            subst hq
            simp [htm, toLowerStr, containsSub_nil]
          · simp only [Bool.not_eq_true] at hq
            simp [htm, hq]
      | some ts =>
        by_cases hts : ts.isEmpty = true
        · rw [List.isEmpty_iff] at hts
          subst hts
          cases os with
          | none => simp [htm]
          | some q =>
            by_cases hq : q.isEmpty = true
            · rw [List.isEmpty_iff] at hq
              subst hq
              simp [htm, toLowerStr, containsSub_nil]
            · simp only [Bool.not_eq_true] at hq
              simp [htm, hq]
        · simp only [Bool.not_eq_true] at hts
          cases os with
          | none => simp [htm, hts]
          | some q =>
            by_cases hq : q.isEmpty = true
            · rw [List.isEmpty_iff] at hq
              subst hq
              simp [htm, hts, toLowerStr, containsSub_nil]
            · simp only [Bool.not_eq_true] at hq
              simp [htm, hts, hq]

theorem searchGo_cons_eq (fs : FileSys) (opts : SearchOptions) (fn : Str)
    (rest : List Str) :
    searchGo fs opts (fn :: rest) =
      (readLearning fs fn).bind fun learning =>
        (searchGo fs opts rest).map fun tail =>
          if matchesCode opts learning then mkResult learning :: tail else tail := by
  conv_lhs => unfold searchGo

/-- When every listed file reads and decodes, the search loop returns the
summaries of exactly the learnings accepted by the filter guards. -/
theorem searchGo_ok (fs : FileSys) (opts : SearchOptions) :
    ∀ files : List Str, (∀ fn ∈ files, (readLearning fs fn).isOk = true) →
      searchGo fs opts files = .ok (files.filterMap fun fn =>
        match readLearning fs fn with
        | .ok l => if matchesCode opts l then some (mkResult l) else none
        | .error _ => none) := by
  intro files
  induction files with
  | nil => intro _; rfl
  | cons fn rest ih =>
    intro h
    have hfn := h fn (List.mem_cons_self _ _)
    cases hr : readLearning fs fn with
    | error e => rw [hr] at hfn; simp [Except.isOk, Except.toBool] at hfn
    | ok l =>
      rw [searchGo_cons_eq, hr, ih (fun g hg => h g (List.mem_cons_of_mem _ hg))]
      rw [List.filterMap_cons, hr]
      by_cases hm : matchesCode opts l = true
      · simp [Except.bind, Except.map, hm]
      · simp only [Bool.not_eq_true] at hm
        simp [Except.bind, Except.map, hm]

/-- C2 (amended): over a backend whose listed documents all decode,
`search` returns exactly the summaries of the documents satisfying every
supplied filter — topic equality for a non-empty supplied topic (an empty
supplied topic excludes nothing), containment of every supplied tag, and
case-insensitive substring match of the query against
`title ++ " " ++ content`; an absent filter excludes nothing. -/
theorem search_returns_exactly_matching (fs : FileSys) (opts : SearchOptions)
    (h : ∀ fn ∈ listFilesFS fs, (readLearning fs fn).isOk = true) :
    searchFS fs opts = .ok ((listFilesFS fs).filterMap fun fn =>
      match readLearning fs fn with
      | .ok l => if matchesSpec opts l then some (mkResult l) else none
      | .error _ => none) := by
  unfold searchFS
  rw [searchGo_ok fs opts (listFilesFS fs) h]
  have : (fun fn =>
      match readLearning fs fn with
      | .ok l => if matchesCode opts l then some (mkResult l) else none
      | .error _ => (none : Option SearchResult)) =
      (fun fn =>
      match readLearning fs fn with
      | .ok l => if matchesSpec opts l then some (mkResult l) else none
      | .error _ => none) := by
    funext fn
    cases hr : readLearning fs fn with
    | ok l => simp [matchesCode_eq_matchesSpec]
    | error e => simp
  rw [this]

/-- Witness for C2 at a two-document backend and a topic filter. -/
theorem search_returns_exactly_matching_witness :
    searchFS
      ⟨[("a.md".toList, serializeLearning
          ⟨"Git Rebase".toList, "git".toList, [], "2024-01-01".toList, []⟩
          "history".toList),
        ("b.md".toList, serializeLearning
          ⟨"TS Types".toList, "typescript".toList, [], "2024-01-01".toList, []⟩
          "types".toList)]⟩
      ⟨some "git".toList, none, none⟩ =
      .ok ((listFilesFS ⟨[("a.md".toList, serializeLearning
          ⟨"Git Rebase".toList, "git".toList, [], "2024-01-01".toList, []⟩
          "history".toList),
        ("b.md".toList, serializeLearning
          ⟨"TS Types".toList, "typescript".toList, [], "2024-01-01".toList, []⟩
          "types".toList)]⟩).filterMap fun fn =>
        match readLearning ⟨[("a.md".toList, serializeLearning
            ⟨"Git Rebase".toList, "git".toList, [], "2024-01-01".toList, []⟩
            "history".toList),
          ("b.md".toList, serializeLearning
            ⟨"TS Types".toList, "typescript".toList, [], "2024-01-01".toList, []⟩
            "types".toList)]⟩ fn with
        | .ok l => if matchesSpec ⟨some "git".toList, none, none⟩ l
            then some (mkResult l) else none
        | .error _ => none) :=
  search_returns_exactly_matching _ _ (by decide)

/-- Counterexample to C2 as frozen: with the empty string supplied as the
topic filter, the code returns a document whose topic is `"git"`, not the
empty set the claim demands ("the document's topic string-equals it"). -/
theorem search_empty_topic_counterexample :
    (∀ fn ∈ listFilesFS ⟨[("a.md".toList, serializeLearning
        ⟨"T".toList, "git".toList, [], "2020-01-01".toList, []⟩ "body".toList)]⟩,
      (readLearning ⟨[("a.md".toList, serializeLearning
        ⟨"T".toList, "git".toList, [], "2020-01-01".toList, []⟩ "body".toList)]⟩
        fn).isOk = true) ∧
    searchFS ⟨[("a.md".toList, serializeLearning
        ⟨"T".toList, "git".toList, [], "2020-01-01".toList, []⟩ "body".toList)]⟩
      ⟨some [], none, none⟩ ≠ .ok [] := by
  constructor
  · decide
  · decide

/-- C10: an empty-string topic, an empty-string text query and an empty
tags list are treated as absent filters — search returns every parseable
document of the backend. -/
theorem search_empty_filters_return_all (fs : FileSys) (opts : SearchOptions)
    (h : ∀ fn ∈ listFilesFS fs, (readLearning fs fn).isOk = true)
    (ht : opts.topic = none ∨ opts.topic = some [])
    (htg : opts.tags = none ∨ opts.tags = some [])
    (hs : opts.search = none ∨ opts.search = some []) :
    searchFS fs opts = .ok ((listFilesFS fs).filterMap fun fn =>
      (readLearning fs fn).toOption.map mkResult) := by
  have hmc : ∀ l : Learning, matchesCode opts l = true := by
    obtain ⟨ot, otg, os⟩ := opts
    simp only at ht htg hs
    intro l
    unfold matchesCode optTruthy optTagsNonempty
    rcases ht with rfl | rfl <;> rcases htg with rfl | rfl <;>
      rcases hs with rfl | rfl <;> simp
  unfold searchFS
  rw [searchGo_ok fs opts (listFilesFS fs) h]
  have : (fun fn =>
      match readLearning fs fn with
      | .ok l => if matchesCode opts l then some (mkResult l) else none
      | .error _ => (none : Option SearchResult)) =
      (fun fn => (readLearning fs fn).toOption.map mkResult) := by
    funext fn
    cases hr : readLearning fs fn with
    | ok l => simp [Except.toOption, hmc l]
    | error e => simp [Except.toOption]
  rw [this]

/-- Witness for C10: every document comes back under all-empty filters. -/
theorem search_empty_filters_return_all_witness :
    searchFS ⟨[("a.md".toList, serializeLearning
        ⟨"T".toList, "git".toList, ["g".toList], "2020-01-01".toList, []⟩
        "body".toList)]⟩
      ⟨some [], some [], some []⟩ =
      .ok ((listFilesFS ⟨[("a.md".toList, serializeLearning
          ⟨"T".toList, "git".toList, ["g".toList], "2020-01-01".toList, []⟩
          "body".toList)]⟩).filterMap fun fn =>
        (readLearning ⟨[("a.md".toList, serializeLearning
            ⟨"T".toList, "git".toList, ["g".toList], "2020-01-01".toList, []⟩
            "body".toList)]⟩ fn).toOption.map mkResult) :=
  search_empty_filters_return_all _ _ (by decide)
    (Or.inr rfl) (Or.inr rfl) (Or.inr rfl)

/-- The search loop fails with the first decode error it meets, whatever
the filters are. -/
theorem searchGo_error (fs : FileSys) (opts : SearchOptions) (fn : Str)
    (e : String) (post : List Str) (herr : readLearning fs fn = .error e) :
    ∀ pre : List Str, (∀ g ∈ pre, (readLearning fs g).isOk = true) →
      searchGo fs opts (pre ++ fn :: post) = .error e := by
  intro pre
  induction pre with
  | nil =>
    intro _
    rw [List.nil_append, searchGo_cons_eq, herr]
    rfl
  | cons g gs ih =>
    intro h
    have hg := h g (List.mem_cons_self _ _)
    cases hr : readLearning fs g with
    | error e2 => rw [hr] at hg; simp [Except.isOk, Except.toBool] at hg
    | ok l =>
      rw [List.cons_append, searchGo_cons_eq, hr,
        ih (fun x hx => h x (List.mem_cons_of_mem _ hx))]
      rfl

/-- C8: if any listed document fails to decode, `search` fails with the
first such decode error for every choice of filter options, and returns no
result list at all. -/
theorem search_propagates_decode_error (fs : FileSys) (opts : SearchOptions)
    (pre post : List Str) (fn : Str) (e : String)
    (hlist : listFilesFS fs = pre ++ fn :: post)
    (hpre : ∀ g ∈ pre, (readLearning fs g).isOk = true)
    (herr : readLearning fs fn = .error e) :
    searchFS fs opts = .error e ∧ ∀ rs, searchFS fs opts ≠ .ok rs := by
  have hmain : searchFS fs opts = .error e := by
    unfold searchFS
    rw [hlist]
    exact searchGo_error fs opts fn e post herr pre hpre
  exact ⟨hmain, fun rs hok => by rw [hmain] at hok; exact Except.noConfusion hok⟩

/-- Witness for C8: a directory whose second file is malformed makes the
search fail even under a filter the malformed file would not match. -/
theorem search_propagates_decode_error_witness :
    searchFS ⟨[("a.md".toList, serializeLearning
        ⟨"T".toList, "git".toList, [], "2020-01-01".toList, []⟩ "body".toList),
      ("bad.md".toList, "no front matter".toList)]⟩
      ⟨some "zzz".toList, none, none⟩ =
      .error "Invalid learning format: missing front matter" ∧
    ∀ rs, searchFS ⟨[("a.md".toList, serializeLearning
        ⟨"T".toList, "git".toList, [], "2020-01-01".toList, []⟩ "body".toList),
      ("bad.md".toList, "no front matter".toList)]⟩
      ⟨some "zzz".toList, none, none⟩ ≠ .ok rs :=
  search_propagates_decode_error _ _ ["a.md".toList] [] "bad.md".toList
    "Invalid learning format: missing front matter"
    (by decide) (by decide) (by decide)

/-- The exact rational ceiling of the handler equals the claimed integer
ceiling-division form. -/
theorem ceil_ratio_eq_ceilShare (limit g l : ℕ) (h : 0 < g + l) :
    (⌈(limit : ℚ) * ((g : ℚ) / ((g : ℚ) + (l : ℚ)))⌉ : ℤ) =
      (ceilShare limit g l : ℤ) := by
  have ht : (0:ℚ) < ((g + l : ℕ) : ℚ) := by exact_mod_cast h
  have hx : (limit : ℚ) * ((g : ℚ) / ((g : ℚ) + (l : ℚ))) =
      ((limit * g : ℕ) : ℚ) / ((g + l : ℕ) : ℚ) := by
    push_cast
    ring
  rw [hx]
  -- ℕ-side bounds for q := (a + t - 1) / t with a := limit * g, t := g + l
  have hub : limit * g ≤ ceilShare limit g l * (g + l) := by
    unfold ceilShare
    rcases Nat.eq_zero_or_pos (limit * g) with hz | ha
    · simp [hz]
    · obtain ⟨b, hb⟩ := Nat.exists_eq_add_of_le ha
      rw [hb]
      have h1 : 1 + b + (g + l) - 1 = b + (g + l) := by omega
      rw [h1, Nat.add_div_right _ h]
      have hexp : (b / (g + l) + 1) * (g + l) = (g + l) * (b / (g + l)) + (g + l) := by
        ring
      rw [hexp]
      have hdm := Nat.div_add_mod b (g + l)
      have hmlt := Nat.mod_lt b h
      linarith [hdm, hmlt]
  have hlb : ceilShare limit g l * (g + l) ≤ limit * g + (g + l) - 1 :=
    Nat.div_mul_le_self _ _
  rw [Int.ceil_eq_iff]
  constructor
  · rw [lt_div_iff₀ ht]
    have hcast : ((limit * g + (g + l) - 1 : ℕ) : ℚ) =
        ((limit * g : ℕ) : ℚ) + ((g + l : ℕ) : ℚ) - 1 := by
      rw [Nat.cast_sub (by omega)]
      push_cast
      ring
    have hlbQ : ((ceilShare limit g l : ℕ) : ℚ) * ((g + l : ℕ) : ℚ) ≤
        ((limit * g : ℕ) : ℚ) + ((g + l : ℕ) : ℚ) - 1 := by
      calc ((ceilShare limit g l : ℕ) : ℚ) * ((g + l : ℕ) : ℚ)
          = ((ceilShare limit g l * (g + l) : ℕ) : ℚ) := by push_cast; ring
        _ ≤ ((limit * g + (g + l) - 1 : ℕ) : ℚ) := by exact_mod_cast hlb
        _ = _ := hcast
    have hexp : (((ceilShare limit g l : ℤ) : ℚ) - 1) * ((g + l : ℕ) : ℚ) =
        ((ceilShare limit g l : ℕ) : ℚ) * ((g + l : ℕ) : ℚ) - ((g + l : ℕ) : ℚ) := by
      push_cast
      ring
    rw [hexp]
    have h1 : (1:ℚ) ≤ ((g + l : ℕ) : ℚ) := by exact_mod_cast h
    linarith [hlbQ, h1]
  · rw [div_le_iff₀ ht]
    calc ((limit * g : ℕ) : ℚ) ≤ ((ceilShare limit g l * (g + l) : ℕ) : ℚ) := by
          exact_mod_cast hub
      _ = (((ceilShare limit g l : ℤ) : ℚ)) * ((g + l : ℕ) : ℚ) := by push_cast; ring

/-- The ceiling share is non-negative and at most the requested limit. -/
theorem listLimits_bounds (limit g l : ℕ) (h : 0 < g + l) :
    0 ≤ (listLimits limit g l).1 ∧ (listLimits limit g l).1 ≤ (limit : ℤ) := by
  unfold listLimits
  constructor
  · exact Int.ceil_nonneg (by positivity)
  · refine Int.ceil_le.mpr ?_
    have ht : (0:ℚ) < (g : ℚ) + (l : ℚ) := by
      have : (0:ℚ) < ((g + l : ℕ) : ℚ) := by exact_mod_cast h
      push_cast at this
      linarith
    have hle : (g : ℚ) / ((g : ℚ) + (l : ℚ)) ≤ 1 := by
      rw [div_le_one ht]
      have : (0:ℚ) ≤ (l : ℚ) := by positivity
      linarith
    calc (limit : ℚ) * ((g : ℚ) / ((g : ℚ) + (l : ℚ)))
        ≤ (limit : ℚ) * 1 := by
          have h0 : (0:ℚ) ≤ (limit : ℚ) := by positivity
          exact mul_le_mul_of_nonneg_left hle h0
      _ = ((limit : ℤ) : ℚ) := by push_cast; ring

/-- C3: with raw counts `g` (global) and `l` (local), `g + l > 0`, and a
requested limit, the handler displays `min(g, ⌈limit·g/(g+l)⌉)` global
results and `min(l, limit − ⌈limit·g/(g+l)⌉)` local results; in particular
limit 6 with g = 8, l = 2 displays 5 global and 1 local result. -/
theorem list_limit_proportional_split (limit : ℕ) (G L : List SearchResult)
    (h : 0 < G.length + L.length) :
    (displaySlices limit G L).1.length =
      min G.length (ceilShare limit G.length L.length) ∧
    (displaySlices limit G L).2.length =
      min L.length (limit - ceilShare limit G.length L.length) ∧
    (displaySlices 6 (List.replicate 8 (⟨[], [], []⟩ : SearchResult))
      (List.replicate 2 (⟨[], [], []⟩ : SearchResult))).1.length = 5 ∧
    (displaySlices 6 (List.replicate 8 (⟨[], [], []⟩ : SearchResult))
      (List.replicate 2 (⟨[], [], []⟩ : SearchResult))).2.length = 1 := by
  have main : ∀ (lim : ℕ) (A B : List SearchResult), 0 < A.length + B.length →
      (displaySlices lim A B).1.length =
        min A.length (ceilShare lim A.length B.length) ∧
      (displaySlices lim A B).2.length =
        min B.length (lim - ceilShare lim A.length B.length) := by
    intro lim A B hab
    obtain ⟨hge0, hlelim⟩ := listLimits_bounds lim A.length B.length hab
    have hceil := ceil_ratio_eq_ceilShare lim A.length B.length hab
    have hfst : (listLimits lim A.length B.length).1 =
        (ceilShare lim A.length B.length : ℤ) := by
      unfold listLimits
      exact hceil
    have hsle : ceilShare lim A.length B.length ≤ lim := by
      rw [hfst] at hlelim
      exact_mod_cast hlelim
    constructor
    · show (jsSlice0 A (listLimits lim A.length B.length).1).length = _
      rw [hfst]
      unfold jsSlice0
      rw [if_pos (by positivity)]
      rw [List.length_take]
      rw [Int.toNat_natCast]
      exact Nat.min_comm _ _
    · show (jsSlice0 B (listLimits lim A.length B.length).2).length = _
      have hsnd : (listLimits lim A.length B.length).2 =
          ((lim - ceilShare lim A.length B.length : ℕ) : ℤ) := by
        show (lim : ℤ) - (listLimits lim A.length B.length).1 = _
        rw [hfst, Int.ofNat_sub hsle]
      rw [hsnd]
      unfold jsSlice0
      rw [if_pos (by positivity)]
      rw [List.length_take, Int.toNat_natCast]
      exact Nat.min_comm _ _
  refine ⟨(main limit G L h).1, (main limit G L h).2, ?_, ?_⟩
  · rw [(main 6 _ _ (by decide)).1]
    decide
  · rw [(main 6 _ _ (by decide)).2]
    decide

/-- Witness for C3 at limit 6 with raw counts 8 and 2. -/
theorem list_limit_proportional_split_witness :
    (displaySlices 6 (List.replicate 8 (⟨[], [], []⟩ : SearchResult))
      (List.replicate 2 (⟨[], [], []⟩ : SearchResult))).1.length = 5 ∧
    (displaySlices 6 (List.replicate 8 (⟨[], [], []⟩ : SearchResult))
      (List.replicate 2 (⟨[], [], []⟩ : SearchResult))).2.length = 1 :=
  ⟨(list_limit_proportional_split 6 (List.replicate 8 ⟨[], [], []⟩)
      (List.replicate 2 ⟨[], [], []⟩) (by decide)).2.2.1,
   (list_limit_proportional_split 6 (List.replicate 8 ⟨[], [], []⟩)
      (List.replicate 2 ⟨[], [], []⟩) (by decide)).2.2.2⟩

theorem lexLt_trans : ∀ {a b c : Str},
    lexLt a b = true → lexLt b c = true → lexLt a c = true := by
  intro a
  induction a with
  | nil =>
    intro b c hab hbc
    cases b with
    | nil => exact absurd hab (by simp [lexLt])
    | cons y ys =>
      cases c with
      | nil => exact absurd hbc (by simp [lexLt])
      | cons z zs => simp [lexLt]
  | cons x xs ih =>
    intro b c hab hbc
    cases b with
    | nil => exact absurd hab (by simp [lexLt])
    | cons y ys =>
      cases c with
      | nil => exact absurd hbc (by simp [lexLt])
      | cons z zs =>
        simp only [lexLt, Bool.or_eq_true, Bool.and_eq_true,
          decide_eq_true_eq] at hab hbc ⊢
        rcases hab with hab | ⟨rfl, hab⟩
        · rcases hbc with hbc | ⟨rfl, hbc⟩
          · exact Or.inl (lt_trans hab hbc)
          · exact Or.inl hab
        · rcases hbc with hbc | ⟨rfl, hbc⟩
          · exact Or.inl hbc
          · exact Or.inr ⟨rfl, ih hab hbc⟩

theorem lexLt_total : ∀ a b : Str, a = b ∨ lexLt a b = true ∨ lexLt b a = true := by
  intro a
  induction a with
  | nil =>
    intro b
    cases b with
    | nil => exact Or.inl rfl
    | cons y ys => exact Or.inr (Or.inl (by simp [lexLt]))
  | cons x xs ih =>
    intro b
    cases b with
    | nil => exact Or.inr (Or.inr (by simp [lexLt]))
    | cons y ys =>
      rcases lt_trichotomy x y with hxy | rfl | hyx
      · exact Or.inr (Or.inl (by simp [lexLt, hxy]))
      · rcases ih ys with rfl | h | h
        · exact Or.inl rfl
        · exact Or.inr (Or.inl (by simp [lexLt, h]))
        · exact Or.inr (Or.inr (by simp [lexLt, h]))
      · exact Or.inr (Or.inr (by simp [lexLt, hyx]))

theorem vocabLt_trans (values : List Str) : ∀ a b c : Str,
    vocabLt values a b = true → vocabLt values b c = true →
    vocabLt values a c = true := by
  intro a b c hab hbc
  simp only [vocabLt, Bool.or_eq_true, Bool.and_eq_true, decide_eq_true_eq,
    beq_iff_eq] at hab hbc ⊢
  rcases hab with hab | ⟨he1, hab⟩
  · rcases hbc with hbc | ⟨he2, hbc⟩
    · exact Or.inl (by omega)
    · exact Or.inl (by omega)
  · rcases hbc with hbc | ⟨he2, hbc⟩
    · exact Or.inl (by omega)
    · exact Or.inr ⟨by omega, lexLt_trans hab hbc⟩

theorem vocabLt_total (values : List Str) (a b : Str) (hne : a ≠ b) :
    vocabLt values a b = true ∨ vocabLt values b a = true := by
  simp only [vocabLt, Bool.or_eq_true, Bool.and_eq_true, decide_eq_true_eq,
    beq_iff_eq]
  rcases lt_trichotomy (countVal values a) (countVal values b) with h | h | h
  · exact Or.inr (Or.inl h)
  · rcases lexLt_total a b with rfl | hl | hl
    · exact absurd rfl hne
    · exact Or.inl (Or.inr ⟨h, hl⟩)
    · exact Or.inr (Or.inr ⟨h.symm, hl⟩)
  · exact Or.inl (Or.inl h)

theorem mem_insertSorted (lt : Str → Str → Bool) (x y : Str) :
    ∀ l : List Str, (y ∈ insertSorted lt x l ↔ y = x ∨ y ∈ l) := by
  intro l
  induction l with
  | nil => simp [insertSorted]
  | cons z zs ih =>
    unfold insertSorted
    by_cases h : lt x z = true
    · rw [if_pos h]
      simp [List.mem_cons]
    · rw [if_neg h]
      simp only [List.mem_cons, ih]
      tauto

theorem pairwise_insertSorted (lt : Str → Str → Bool)
    (htrans : ∀ a b c : Str, lt a b = true → lt b c = true → lt a c = true)
    (x : Str) :
    ∀ l : List Str, l.Pairwise (fun a b => lt a b = true) →
      (∀ y ∈ l, lt x y = true ∨ lt y x = true) →
      (insertSorted lt x l).Pairwise (fun a b => lt a b = true) := by
  intro l
  induction l with
  | nil =>
    intro _ _
    simp [insertSorted]
  | cons y ys ih =>
    intro hl htot
    rw [List.pairwise_cons] at hl
    obtain ⟨hy, hys⟩ := hl
    unfold insertSorted
    by_cases hxy : lt x y = true
    · rw [if_pos hxy, List.pairwise_cons]
      refine ⟨?_, List.pairwise_cons.mpr ⟨hy, hys⟩⟩
      intro z hz
      rcases List.mem_cons.mp hz with rfl | hz2
      · exact hxy
      · exact htrans x y z hxy (hy z hz2)
    · rw [if_neg hxy, List.pairwise_cons]
      constructor
      · intro z hz
        rcases (mem_insertSorted lt x z ys).mp hz with rfl | hz2
        · rcases htot y (List.mem_cons_self _ _) with h | h
          · exact absurd h hxy
          · exact h
        · exact hy z hz2
      · exact ih hys (fun z hz => htot z (List.mem_cons_of_mem _ hz))

theorem sortVocab_props (values : List Str) :
    (∀ v, v ∈ sortVocab values ↔ v ∈ values) ∧
    (sortVocab values).Pairwise (fun a b => vocabLt values a b = true) := by
  suffices h : ∀ d : List Str, d.Nodup →
      (∀ v, (v ∈ d.foldr (insertSorted (vocabLt values)) [] ↔ v ∈ d)) ∧
      (d.foldr (insertSorted (vocabLt values)) []).Pairwise
        (fun a b => vocabLt values a b = true) by
    obtain ⟨hmem, hpw⟩ := h values.dedup (List.nodup_dedup _)
    exact ⟨fun v => (hmem v).trans (List.mem_dedup), hpw⟩
  intro d
  induction d with
  | nil =>
    intro _
    simp
  | cons x xs ih =>
    intro hnd
    rw [List.nodup_cons] at hnd
    obtain ⟨hx, hxs⟩ := hnd
    obtain ⟨ihmem, ihpw⟩ := ih hxs
    constructor
    · intro v
      rw [List.foldr_cons, mem_insertSorted, ihmem, List.mem_cons]
    · rw [List.foldr_cons]
      refine pairwise_insertSorted _ (vocabLt_trans values) x _ ihpw ?_
      intro y hy
      have hyxs : y ∈ xs := (ihmem y).mp hy
      exact vocabLt_total values x y (fun he => hx (he ▸ hyxs))

theorem vocabLt_iff (values : List Str) (a b : Str) :
    vocabLt values a b = true ↔
      (countVal values b < countVal values a ∨
       (countVal values a = countVal values b ∧ lexLt a b = true)) := by
  simp [vocabLt]

/-- C6 (spec-modelled): `getMetadata` produces a topics list and a tags
list, each containing exactly the values occurring across the documents,
sorted descending by occurrence count with ties broken by ascending
lexicographic order; in particular documents with topics
`[git, git, ts]` produce the topics list `["git", "ts"]`. -/
theorem getMetadata_freq_sorted :
    (∀ docs : List LearningMetadata,
      (getMetadataModel docs).1.Pairwise (fun a b =>
        countVal (docs.map (fun d => d.topic)) b <
          countVal (docs.map (fun d => d.topic)) a ∨
        (countVal (docs.map (fun d => d.topic)) a =
          countVal (docs.map (fun d => d.topic)) b ∧ lexLt a b = true)) ∧
      (∀ v, v ∈ (getMetadataModel docs).1 ↔ v ∈ docs.map (fun d => d.topic)) ∧
      (getMetadataModel docs).2.Pairwise (fun a b =>
        countVal ((docs.map (fun d => d.tags)).flatten) b <
          countVal ((docs.map (fun d => d.tags)).flatten) a ∨
        (countVal ((docs.map (fun d => d.tags)).flatten) a =
          countVal ((docs.map (fun d => d.tags)).flatten) b ∧ lexLt a b = true)) ∧
      (∀ v, v ∈ (getMetadataModel docs).2 ↔
        v ∈ (docs.map (fun d => d.tags)).flatten)) ∧
    (getMetadataModel
      [⟨"t1".toList, "git".toList, [], "d".toList, []⟩,
       ⟨"t2".toList, "git".toList, [], "d".toList, []⟩,
       ⟨"t3".toList, "ts".toList, [], "d".toList, []⟩]).1 =
      ["git".toList, "ts".toList] := by
  constructor
  · intro docs
    obtain ⟨m1, p1⟩ := sortVocab_props (docs.map (fun d => d.topic))
    obtain ⟨m2, p2⟩ := sortVocab_props ((docs.map (fun d => d.tags)).flatten)
    exact ⟨p1.imp (fun h => (vocabLt_iff _ _ _).mp h), m1,
      p2.imp (fun h => (vocabLt_iff _ _ _).mp h), m2⟩
  · decide
